import Mathlib

set_option maxHeartbeats 1000000

/-!
Verification development for the live-translate streaming translator.

Shallow embedding of the core of `src/translator.py` (the incremental
translator post-processing, the stability-window detector and the
per-utterance reconciliation state held by `StreamingTranslator`) and of the
event handlers of `src/agent.py` that drive it.

Python strings are modelled as Lean `String`s; `str.split()`, `str.strip()`
and `" ".join(...)` are modelled by `pySplit`, `pyStrip` and `pyJoin` below,
which reproduce Python's semantics (split on runs of whitespace, dropping
empty pieces; trim whitespace at both ends; intercalate a single space).
Wall-clock times and latencies (floats in the source) are modelled as `Nat`:
no claim depends on arithmetic over them, only on presence/absence and on
which values are appended where.
-/

/-! ## Model of Python string primitives -/

/-- Word-character test: `notWS c` is true when `c` is not whitespace (word characters). -/
def notWS (c : Char) : Bool := !c.isWhitespace

/-- Model of Python `str.split()` on a character list: split on runs of
whitespace, dropping empty pieces.  Defined by structural recursion so that
it reduces inside the kernel. -/
def splitW : List Char → List (List Char)
  | [] => []
  | [c] => if c.isWhitespace then [] else [[c]]
  | c :: d :: cs =>
    if c.isWhitespace then splitW (d :: cs)
    else if d.isWhitespace then [c] :: splitW (d :: cs)
    else
      match splitW (d :: cs) with
      | [] => [[c]]
      | w :: r => (c :: w) :: r

/-- Model of `" ".join(...)` on character lists: intercalate one space. -/
def joinW : List (List Char) → List Char
  | [] => []
  | [w] => w
  | w :: x :: r => w ++ ' ' :: joinW (x :: r)

/-- Model of Python `str.strip()` on a character list. -/
def stripChars (l : List Char) : List Char :=
  ((l.dropWhile Char.isWhitespace).reverse.dropWhile Char.isWhitespace).reverse

/-- Python `s.split()`. -/
def pySplit (s : String) : List String := (splitW s.data).map String.mk

/-- Python `" ".join(ws)`. -/
def pyJoin (ws : List String) : String := String.mk (joinW (ws.map String.data))

/-- Python `s.strip()`. -/
def pyStrip (s : String) : String := String.mk (stripChars s.data)

/-- A word as produced by `splitW`: non-empty and free of whitespace. -/
def CleanChars (w : List Char) : Prop :=
  w ≠ [] ∧ ∀ c ∈ w, c.isWhitespace = false

/-- A word string as produced by `pySplit`. -/
def CleanStr (w : String) : Prop :=
  w.data ≠ [] ∧ ∀ c ∈ w.data, c.isWhitespace = false

/-! ### Lemmas about the string model -/

theorem splitW_ws {c : Char} (cs : List Char) (h : c.isWhitespace = true) :
    splitW (c :: cs) = splitW cs := by
  cases cs with
  | nil => simp [splitW, h]
  | cons d ds => simp [splitW, h]

theorem splitW_cons {c : Char} (cs : List Char) (h : c.isWhitespace = false) :
    splitW (c :: cs) = (c :: cs.takeWhile notWS) :: splitW (cs.dropWhile notWS) := by
  induction cs generalizing c with
  | nil => simp [splitW, h]
  | cons d ds ih =>
    by_cases hd : d.isWhitespace
    · simp [splitW, h, hd, List.takeWhile, List.dropWhile, notWS]
    · have hd' : d.isWhitespace = false := by simpa using hd
      rw [show splitW (c :: d :: ds)
            = match splitW (d :: ds) with
              | [] => [[c]]
              | w :: r => (c :: w) :: r from by simp [splitW, h, hd']]
      rw [ih hd']
      simp [List.takeWhile, List.dropWhile, notWS, hd']

theorem takeWhile_all {p : Char → Bool} :
    ∀ l : List Char, (∀ x ∈ l, p x = true) → l.takeWhile p = l := by
  intro l
  induction l with
  | nil => intro _; rfl
  | cons a t ih =>
    intro h
    have ha := h a (List.mem_cons_self a t)
    simp [List.takeWhile, ha, ih fun x hx => h x (List.mem_cons_of_mem a hx)]

theorem dropWhile_all {p : Char → Bool} :
    ∀ l : List Char, (∀ x ∈ l, p x = true) → l.dropWhile p = [] := by
  intro l
  induction l with
  | nil => intro _; rfl
  | cons a t ih =>
    intro h
    have ha := h a (List.mem_cons_self a t)
    simp [List.dropWhile, ha, ih fun x hx => h x (List.mem_cons_of_mem a hx)]

theorem takeWhile_append_stop {p : Char → Bool} {y : Char} {t : List Char} :
    ∀ l : List Char, (∀ x ∈ l, p x = true) → p y = false →
      (l ++ y :: t).takeWhile p = l := by
  intro l
  induction l with
  | nil => intro _ hy; simp [List.takeWhile, hy]
  | cons a m ih =>
    intro h hy
    have ha := h a (List.mem_cons_self a m)
    simp [List.takeWhile, ha, ih (fun x hx => h x (List.mem_cons_of_mem a hx)) hy]

theorem dropWhile_append_stop {p : Char → Bool} {y : Char} {t : List Char} :
    ∀ l : List Char, (∀ x ∈ l, p x = true) → p y = false →
      (l ++ y :: t).dropWhile p = y :: t := by
  intro l
  induction l with
  | nil => intro _ hy; simp [List.dropWhile, hy]
  | cons a m ih =>
    intro h hy
    have ha := h a (List.mem_cons_self a m)
    simp [List.dropWhile, ha, ih (fun x hx => h x (List.mem_cons_of_mem a hx)) hy]

theorem splitW_clean : ∀ l : List Char, ∀ w ∈ splitW l, CleanChars w := by
  intro l
  induction l with
  | nil => intro w hw; simp [splitW] at hw
  | cons c cs ih =>
    intro w hw
    by_cases hc : c.isWhitespace
    · rw [splitW_ws cs hc] at hw
      exact ih w hw
    · have hc' : c.isWhitespace = false := by simpa using hc
      cases cs with
      | nil =>
        simp [splitW, hc'] at hw
        subst hw
        exact ⟨by simp, by intro x hx; simp at hx; subst hx; exact hc'⟩
      | cons d ds =>
        by_cases hd : d.isWhitespace
        · simp only [splitW, hc', hd, if_true, if_false, Bool.false_eq_true] at hw
          rcases List.mem_cons.mp hw with hw | hw
          · subst hw
            exact ⟨by simp, by intro x hx; simp at hx; subst hx; exact hc'⟩
          · exact ih w hw
        · have hd' : d.isWhitespace = false := by simpa using hd
          rcases hrec : splitW (d :: ds) with _ | ⟨w0, r⟩
          · simp only [splitW, hc', hd', if_false, Bool.false_eq_true, hrec] at hw
            simp at hw
            subst hw
            exact ⟨by simp, by intro x hx; simp at hx; subst hx; exact hc'⟩
          · simp only [splitW, hc', hd', if_false, Bool.false_eq_true, hrec] at hw
            rcases List.mem_cons.mp hw with hw | hw
            · subst hw
              have hw0 : CleanChars w0 := ih w0 (by rw [hrec]; exact List.mem_cons_self w0 r)
              refine ⟨by simp, ?_⟩
              intro x hx
              rcases List.mem_cons.mp hx with hx | hx
              · subst hx; exact hc'
              · exact hw0.2 x hx
            · exact ih w (by rw [hrec]; exact List.mem_cons_of_mem w0 hw)

theorem splitW_single : ∀ w : List Char, CleanChars w → splitW w = [w] := by
  intro w hw
  cases w with
  | nil => exact absurd rfl hw.1
  | cons c cs =>
    have hc : c.isWhitespace = false := hw.2 c (List.mem_cons_self c cs)
    rw [splitW_cons cs hc]
    have hall : ∀ x ∈ cs, notWS x = true := by
      intro x hx
      simp [notWS, hw.2 x (List.mem_cons_of_mem c hx)]
    rw [takeWhile_all cs hall, dropWhile_all cs hall]
    rfl

theorem splitW_word_sep : ∀ (w t : List Char), CleanChars w →
    splitW (w ++ ' ' :: t) = w :: splitW t := by
  intro w t hw
  cases w with
  | nil => exact absurd rfl hw.1
  | cons c cs =>
    have hc : c.isWhitespace = false := hw.2 c (List.mem_cons_self c cs)
    rw [List.cons_append, splitW_cons (cs ++ ' ' :: t) hc]
    have hall : ∀ x ∈ cs, notWS x = true := by
      intro x hx
      simp [notWS, hw.2 x (List.mem_cons_of_mem c hx)]
    have hsp : notWS ' ' = false := by simp [notWS]
    rw [takeWhile_append_stop cs hall hsp, dropWhile_append_stop cs hall hsp]
    rw [splitW_ws t (by rfl)]

theorem splitW_joinW : ∀ ws : List (List Char), (∀ w ∈ ws, CleanChars w) →
    splitW (joinW ws) = ws := by
  intro ws
  induction ws with
  | nil => intro _; rfl
  | cons w rest ih =>
    intro h
    cases rest with
    | nil =>
      simpa [joinW] using splitW_single w (h w (List.mem_cons_self w []))
    | cons x r =>
      have hw : CleanChars w := h w (List.mem_cons_self w (x :: r))
      rw [show joinW (w :: x :: r) = w ++ ' ' :: joinW (x :: r) from rfl]
      rw [splitW_word_sep w (joinW (x :: r)) hw]
      rw [ih fun v hv => h v (List.mem_cons_of_mem w hv)]

theorem head_dropWhile_false {p : Char → Bool} :
    ∀ (l : List Char) (a : Char), (l.dropWhile p).head? = some a → p a = false := by
  intro l
  induction l with
  | nil => intro a h; simp [List.dropWhile] at h
  | cons c cs ih =>
    intro a h
    by_cases hc : p c
    · rw [List.dropWhile_cons_of_pos hc] at h
      exact ih a h
    · rw [List.dropWhile_cons_of_neg hc] at h
      simp at h
      subst h
      simpa using hc

theorem dropWhile_of_head_false {p : Char → Bool} :
    ∀ l : List Char, (∀ a, l.head? = some a → p a = false) → l.dropWhile p = l := by
  intro l h
  cases l with
  | nil => rfl
  | cons c cs =>
    have := h c rfl
    rw [List.dropWhile_cons_of_neg (by simp [this])]

theorem getLast?_dropWhile {p : Char → Bool} :
    ∀ l : List Char, l.dropWhile p ≠ [] → (l.dropWhile p).getLast? = l.getLast? := by
  intro l
  induction l with
  | nil => intro h; simp [List.dropWhile] at h
  | cons c cs ih =>
    intro h
    by_cases hc : p c
    · rw [List.dropWhile_cons_of_pos hc] at h ⊢
      have hcs : cs ≠ [] := by
        intro hn; rw [hn] at h; simp [List.dropWhile] at h
      rw [ih h]
      cases cs with
      | nil => exact absurd rfl hcs
      | cons d ds => rfl
    · rw [List.dropWhile_cons_of_neg hc]

theorem stripChars_idem : ∀ l : List Char, stripChars (stripChars l) = stripChars l := by
  intro l
  unfold stripChars
  set A := l.dropWhile Char.isWhitespace with hA
  set B := A.reverse.dropWhile Char.isWhitespace with hB
  rcases hBe : B with _ | ⟨b0, bs⟩
  · simp [hBe]
  · have hBne : B ≠ [] := by rw [hBe]; simp
    -- the head of B.reverse is the last of B, which is the head of A (non-ws)
    have hAne : A ≠ [] := by
      intro hn
      rw [hn] at hB
      simp [List.dropWhile] at hB
      exact hBne hB
    have hlastB : B.getLast? = A.reverse.getLast? := getLast?_dropWhile A.reverse hBne
    have hheadA : A.reverse.getLast? = A.head? := List.getLast?_reverse A
    have hAhead : ∀ a, A.head? = some a → Char.isWhitespace a = false := by
      intro a ha
      exact head_dropWhile_false l a ha
    -- step 1: dropWhile over B.reverse is B.reverse
    have h1 : B.reverse.dropWhile Char.isWhitespace = B.reverse := by
      apply dropWhile_of_head_false
      intro a ha
      rw [List.head?_reverse] at ha
      rw [hlastB, hheadA] at ha
      exact hAhead a ha
    -- step 2: dropWhile over B is B
    have h2 : B.dropWhile Char.isWhitespace = B := by
      apply dropWhile_of_head_false
      intro a ha
      exact head_dropWhile_false A.reverse a (hB ▸ ha)
    rw [← hBe]
    rw [h1, List.reverse_reverse, h2]

theorem String_mk_data : ∀ s : String, String.mk s.data = s := fun _ => rfl

theorem pyStrip_idem : ∀ s : String, pyStrip (pyStrip s) = pyStrip s := by
  intro s
  simp [pyStrip, stripChars_idem]

theorem pySplit_clean : ∀ (s : String), ∀ w ∈ pySplit s, CleanStr w := by
  intro s w hw
  simp only [pySplit, List.mem_map] at hw
  obtain ⟨w', hw', rfl⟩ := hw
  exact splitW_clean s.data w' hw'

theorem pySplit_pyJoin : ∀ ws : List String, (∀ w ∈ ws, CleanStr w) →
    pySplit (pyJoin ws) = ws := by
  intro ws h
  have hc : ∀ w' ∈ ws.map String.data, CleanChars w' := by
    intro w' hw'
    simp only [List.mem_map] at hw'
    obtain ⟨w, hw, rfl⟩ := hw'
    exact h w hw
  simp only [pySplit, pyJoin]
  rw [splitW_joinW (ws.map String.data) hc]
  rw [List.map_map]
  exact List.map_id ws

/-- Empty string facts used throughout. -/
theorem pySplit_empty : pySplit "" = [] := rfl

theorem pyJoin_nil : pyJoin [] = "" := rfl

/-! ## Data model (src/translator.py) -/

/-- Result of incremental translation (`TranslationResult`, translator.py 15-21).
`latency_ms` is a float in the source, modelled as `Nat`. -/
structure TranslationResult where
  delta : String
  full_translation : String
  latency_ms : Nat
deriving DecidableEq

/-- A failure of the network call inside `translate_delta` (the `openai`
client raising).  The source defines no error class of its own; this type
stands for whatever exception propagates. -/
structure BackendError where
  msg : String
deriving DecidableEq

/-- The network part of `IncrementalTranslator.translate_delta`: given
`(current_source, previous_source, previous_translation, source_lang,
target_lang)` the external LLM either raises or yields the raw message
content together with the measured latency (translator.py 76-83). -/
abbrev Backend : Type :=
  String → String → String → String → String → Except BackendError (String × Nat)

/-- Quote removal (translator.py 87-88): if the stripped content both starts
and ends with a double quote, take `full_translation[1:-1]`. -/
def stripQuotes (s : String) : String :=
  if s.data.head? = some '"' ∧ s.data.getLast? = some '"' then
    String.mk ((s.data.drop 1).dropLast)
  else s

/-- The delta computation of `translate_delta` (translator.py 90-100):
if a previous translation exists, the delta is the words of the full
translation beyond the word count of the previous translation, joined with
spaces; otherwise the delta is the full translation itself. -/
def delta_of (previous_translation full_translation : String) : String :=
  if previous_translation ≠ "" then
    pyJoin ((pySplit full_translation).drop (pySplit previous_translation).length)
  else full_translation

/-- The pure post-response part of `IncrementalTranslator.translate_delta`
(translator.py 83-106): strip the raw content, remove wrapping quotes,
compute the delta against `previous_translation`, and return the result with
the measured latency. -/
def translate_post (content previous_translation : String) (latency_ms : Nat) :
    TranslationResult :=
  let full_translation := stripQuotes (pyStrip content)
  { delta := delta_of previous_translation full_translation
    full_translation := full_translation
    latency_ms := latency_ms }

/-- Model of `IncrementalTranslator.translate_delta` (translator.py 38-106): the
network call either raises (propagated) or its content is post-processed by
`translate_post`. -/
def translate_delta (backend : Backend)
    (current_source previous_source previous_translation source_lang target_lang :
      String) : Except BackendError TranslationResult :=
  match backend current_source previous_source previous_translation
      source_lang target_lang with
  | .error e => .error e
  | .ok (content, latency_ms) =>
    .ok (translate_post content previous_translation latency_ms)

/-- The configuration fields of the `StreamingTranslator` dataclass
(translator.py 117-121), immutable during a session. -/
structure Config where
  source_lang : String
  target_lang : String
  stability_threshold : Nat
  min_words_for_tts : Nat
deriving DecidableEq

/-- The mutable state fields of `StreamingTranslator` (translator.py
123-132).  The source field `translated_prefix` is named `translated_pfx`
here.  Times and latencies are `Nat` (floats in the source). -/
structure StreamingState where
  interim_history : List String
  last_stable_source : String
  translated_pfx : String
  spoken_word_count : Nat
  speech_start_time : Option Nat
  first_audio_time : Option Nat
  llm_latencies : List Nat
deriving DecidableEq

/-- The state of a freshly constructed `StreamingTranslator` (dataclass
defaults, translator.py 123-132). -/
def initState : StreamingState :=
  { interim_history := []
    last_stable_source := ""
    translated_pfx := ""
    spoken_word_count := 0
    speech_start_time := none
    first_audio_time := none
    llm_latencies := [] }

/-- Model of `StreamingTranslator.reset` (translator.py 134-141).  Note that
`llm_latencies` is NOT cleared by the source. -/
def reset (st : StreamingState) : StreamingState :=
  { st with
    interim_history := []
    last_stable_source := ""
    translated_pfx := ""
    spoken_word_count := 0
    speech_start_time := none
    first_audio_time := none }

/-- Python `lst[-k:]` (translator.py 160): for `k = 0` this is the whole
list because `-0 == 0` in Python; otherwise the trailing `k` elements
(`Nat` subtraction matches Python when `k > len`). -/
def trailing (k : Nat) (l : List String) : List String :=
  if k = 0 then l else l.drop (l.length - k)

/-- One stability test of the detector loop (translator.py 164-166): the
word at index `i` exists and equals `w` in every member of `recent`
(`len(h.split()) > i and h.split()[i] == word`, combined into `get?`). -/
def wordStable (recent : List String) (i : Nat) (w : String) : Bool :=
  recent.all fun h => (pySplit h).get? i == some w

/-- The detector loop (translator.py 162-172): walk the current words from
the start, keeping them while stable, stopping at the first unstable index
(the `break`).  `words[:stable_count]` is exactly this prefix. -/
def stableTake (recent : List String) : Nat → List String → List String
  | _, [] => []
  | i, w :: ws =>
    if wordStable recent i w then w :: stableTake recent (i + 1) ws else []

/-- Model of `StreamingTranslator.get_stable_prefix` (translator.py 143-172), named
`get_stable_pfx` here. -/
def get_stable_pfx (cfg : Config) (st : StreamingState) (current_text : String) :
    String :=
  let words := pySplit current_text
  if st.interim_history.length < cfg.stability_threshold then
    if st.translated_pfx ≠ "" then
      if 1 ≤ st.interim_history.length then current_text else ""
    else ""
  else
    let recent := trailing cfg.stability_threshold st.interim_history
    pyJoin (stableTake recent 0 words)

/-- Python truthiness of an `Optional[float]`: `None` and `0.0` are falsy
(translator.py 219). -/
def optTruthy (o : Option Nat) : Bool := o.getD 0 ≠ 0

/-- Computation `len(result.delta.split()) if result.delta else 0` (translator.py 208). -/
def delta_word_count (r : TranslationResult) : Nat :=
  if r.delta ≠ "" then (pySplit r.delta).length else 0

/-- Model of `StreamingTranslator.process_interim` (translator.py 174-222), in
explicit state-passing form.  The returned state carries every mutation the
method performed before returning or before the backend call raised; the
`Except` distinguishes a propagated exception from a normal return. -/
def process_interim (cfg : Config) (backend : Backend) (st : StreamingState)
    (now : Nat) (text0 : String) :
    StreamingState × Except BackendError (Option TranslationResult) :=
  let text := pyStrip text0
  if text = "" then (st, .ok none)
  else
    let st1 := { st with interim_history := st.interim_history ++ [text] }
    let stable := get_stable_pfx cfg st1 text
    if stable = "" then (st1, .ok none)
    else if stable = st1.last_stable_source then (st1, .ok none)
    else
      match translate_delta backend stable st1.last_stable_source
          st1.translated_pfx cfg.source_lang cfg.target_lang with
      | .error e => (st1, .error e)
      | .ok result =>
        let st2 := { st1 with llm_latencies := st1.llm_latencies ++ [result.latency_ms] }
        if delta_word_count result < cfg.min_words_for_tts then (st2, .ok none)
        else
          let st3 := { st2 with
            last_stable_source := stable
            translated_pfx := result.full_translation }
          let st4 :=
            if st3.first_audio_time = none ∧ optTruthy st3.speech_start_time then
              { st3 with first_audio_time := some now }
            else st3
          (st4, .ok (some result))

/-- Model of `StreamingTranslator.process_final` (translator.py 224-242), in explicit
state-passing form.  The method contains no assignment to any field of
`self`, so the state component is returned as received. -/
def process_final (st : StreamingState) (translated_text0 : String) :
    StreamingState × Option String :=
  let translated_text := pyStrip translated_text0
  if translated_text = "" then (st, none)
  else
    let final_words := pySplit translated_text
    let remaining_words := final_words.drop st.spoken_word_count
    if remaining_words ≠ [] then (st, some (pyJoin remaining_words)) else (st, none)

/-! ## The agent's event handlers (src/agent.py) -/

/-- The only artifact handed to the TTS invoker: `session.say(text,
allow_interruptions)` (agent.py 137 and 183). -/
structure SpeakAction where
  text : String
  interruptible : Bool
deriving DecidableEq

/-- The `is_final` branch of `on_transcribed` (agent.py 123-173): strip the
transcript, return early when empty; otherwise speak the unspoken remainder
non-interruptibly (if any) and reset the streaming state. -/
def on_final (st : StreamingState) (text0 : String) :
    StreamingState × Option SpeakAction :=
  let text := pyStrip text0
  if text = "" then (st, none)
  else
    match process_final st text with
    | (st', some remaining) => (reset st', some ⟨remaining, false⟩)
    | (st', none) => (reset st', none)

/-- The interim branch of `on_transcribed` together with `process_and_speak`
(agent.py 175-186): on a usable result with a non-empty delta, speak it
interruptibly and advance `spoken_word_count` by the delta's word count. -/
def process_and_speak (cfg : Config) (backend : Backend) (st : StreamingState)
    (now : Nat) (text : String) : StreamingState × Option SpeakAction :=
  match process_interim cfg backend st now text with
  | (st1, .ok (some result)) =>
    if result.delta ≠ "" then
      ({ st1 with
          spoken_word_count := st1.spoken_word_count + (pySplit result.delta).length },
        some ⟨result.delta, true⟩)
    else (st1, none)
  | (st1, _) => (st1, none)

/-- Process a list of interim transcripts in order, collecting the emitted
speak-actions. -/
def run_interims (cfg : Config) (backend : Backend) (now : Nat) :
    StreamingState → List String → StreamingState × List SpeakAction
  | st, [] => (st, [])
  | st, t :: ts =>
    let p := process_and_speak cfg backend st now t
    let q := run_interims cfg backend now p.1 ts
    (q.1, p.2.toList ++ q.2)

/-- One whole utterance: its interims followed by the single final
transcript. -/
def run_utterance (cfg : Config) (backend : Backend) (now : Nat)
    (st : StreamingState) (interims : List String) (finalText : String) :
    StreamingState × List SpeakAction :=
  let p := run_interims cfg backend now st interims
  let q := on_final p.1 finalText
  (q.1, p.2 ++ q.2.toList)

/-- The words of a sequence of speak-actions, in order. -/
def spokenWords (acts : List SpeakAction) : List String :=
  (acts.map fun a => pySplit a.text).flatten

/-! ## Claim theorems -/

/-- C8: For every string `p` and `f`: the delta computation yields the empty
word sequence when the full translation equals the previous translation
(`delta(prefix, prefix) == []`), and yields all words of the full
translation when the previous translation is empty
(`delta("", full) == full.split()`). -/
theorem C8_delta_identities :
    ∀ p f : String,
      pySplit (delta_of p p) = [] ∧
      delta_of "" f = f ∧
      pySplit (delta_of "" f) = pySplit f := by
  intro p f
  refine ⟨?_, ?_, ?_⟩
  · by_cases hp : p = ""
    · subst hp
      rfl
    · simp only [delta_of, hp, ne_eq, not_false_iff, if_true, List.drop_length]
      rfl
  · simp [delta_of]
  · simp [delta_of]

/-- Follows the spec's words (§4.3 / §7): a malformed response with empty
content is to be surfaced as a distinguishable `BackendError` instead of a
normal `TranslationResult`.  Stated as a second definition to compare the
code against the claim. -/
def translate_post_claimed (content previous_translation : String)
    (latency_ms : Nat) : Except BackendError TranslationResult :=
  if pyStrip content = "" then .error ⟨"empty content"⟩
  else .ok (translate_post content previous_translation latency_ms)

/-- C7 counterexample: on empty content the code returns a normal
`TranslationResult` (with empty delta and empty full translation), not the
distinguishable failure that the claim requires. -/
theorem C7_counterexample :
    translate_post "" "" 5 = { delta := "", full_translation := "", latency_ms := 5 } ∧
    translate_post_claimed "" "" 5 = .error ⟨"empty content"⟩ ∧
    translate_post_claimed "" "" 5 ≠ .ok (translate_post "" "" 5) := by
  have h1 : translate_post_claimed "" "" 5 = .error ⟨"empty content"⟩ := rfl
  refine ⟨by decide, h1, ?_⟩
  rw [h1]
  intro h
  exact Except.noConfusion h

/-- C7 amended: empty backend content is NOT treated as an error:
`translate_delta`'s post-processing returns a normal `TranslationResult`
whose delta and full translation are both empty (so downstream the interim
yields no speak-action, its delta word count being 0), and the measured
latency is carried into the result regardless of the content. -/
theorem C7_amended :
    ∀ (content prev : String) (lat : Nat),
      (translate_post content prev lat).latency_ms = lat ∧
      (pyStrip content = "" →
        translate_post content prev lat =
          { delta := "", full_translation := "", latency_ms := lat } ∧
        delta_word_count (translate_post content prev lat) = 0) := by
  intro content prev lat
  constructor
  · rfl
  · intro h
    have hq : stripQuotes (pyStrip content) = "" := by
      rw [h]
      decide
    have hfull : translate_post content prev lat =
        { delta := delta_of prev "", full_translation := "", latency_ms := lat } := by
      simp only [translate_post, hq]
    have hdelta : delta_of prev "" = "" := by
      by_cases hp : prev = ""
      · subst hp; rfl
      · simp only [delta_of, hp, ne_eq, not_false_iff, if_true]
        rw [show pySplit "" = [] from rfl, List.drop_nil]
        exact pyJoin_nil
    constructor
    · rw [hfull, hdelta]
    · rw [hfull, hdelta]
      rfl

/-- C7 amended witness at a concrete input. -/
theorem C7_amended_witness :
    (translate_post "" "xyz" 9).latency_ms = 9 ∧
      translate_post "" "xyz" 9 =
        { delta := "", full_translation := "", latency_ms := 9 } ∧
      delta_word_count (translate_post "" "xyz" 9) = 0 :=
  ⟨(C7_amended "" "xyz" 9).1,
    ((C7_amended "" "xyz" 9).2 (by decide)).1,
    ((C7_amended "" "xyz" 9).2 (by decide)).2⟩

/-- C6: while fewer than `stability_threshold` observations are recorded,
the detector returns the entire current text when a non-empty translated
prefix exists (continuity context, threshold relaxed to 1) and at least one
observation exists; otherwise it returns the empty string. -/
theorem C6_below_threshold :
    ∀ (cfg : Config) (st : StreamingState) (text : String),
      st.interim_history.length < cfg.stability_threshold →
      get_stable_pfx cfg st text =
        if st.translated_pfx ≠ "" ∧ 1 ≤ st.interim_history.length then text
        else "" := by
  intro cfg st text h
  simp only [get_stable_pfx, if_pos h]
  by_cases h1 : st.translated_pfx ≠ ""
  · by_cases h2 : 1 ≤ st.interim_history.length
    · simp [h1, h2]
    · simp [h1, h2]
  · simp [h1]

/-- C6 witness: threshold 3, one recorded observation, non-empty translated
prefix: the detector returns the whole current text. -/
theorem C6_below_threshold_witness :
    get_stable_pfx ⟨"Russian", "English", 3, 2⟩
        { initState with interim_history := ["hi there"], translated_pfx := "prior" }
        "hi there" =
      if ("prior" : String) ≠ "" ∧ 1 ≤ (["hi there"] : List String).length
      then "hi there" else "" :=
  C6_below_threshold ⟨"Russian", "English", 3, 2⟩
    { initState with interim_history := ["hi there"], translated_pfx := "prior" }
    "hi there" (by decide)

/-- C5: `process_final` returns exactly the words from position
`spoken_word_count` on, joined by spaces — `none` when everything was
already spoken or the text is empty/whitespace-only; the speak-action the
agent emits for a non-empty remainder is non-interruptible; and the
concrete scenario: final `"hello there friend"` with `spoken_word_count = 2`
yields remainder `"friend"`. -/
theorem C5_final_remainder :
    (∀ (st : StreamingState) (text : String),
      (process_final st text).2 =
        if pyStrip text ≠ "" ∧
            st.spoken_word_count < (pySplit (pyStrip text)).length then
          some (pyJoin ((pySplit (pyStrip text)).drop st.spoken_word_count))
        else none) ∧
    (∀ (st : StreamingState) (text : String) (a : SpeakAction),
      (on_final st text).2 = some a → a.interruptible = false) ∧
    (process_final { initState with spoken_word_count := 2 }
        "hello there friend").2 = some "friend" := by
  refine ⟨?_, ?_, by decide⟩
  · intro st text
    by_cases he : pyStrip text = ""
    · simp [process_final, he]
    · simp only [process_final, he, if_false, Bool.false_eq_true, ne_eq,
        not_false_iff, true_and]
      by_cases hlt : st.spoken_word_count < (pySplit (pyStrip text)).length
      · have hne : (pySplit (pyStrip text)).drop st.spoken_word_count ≠ [] := by
          intro hnil
          have := List.drop_eq_nil_iff.mp hnil
          omega
        simp [he, hne, hlt]
      · have hnil : (pySplit (pyStrip text)).drop st.spoken_word_count = [] := by
          apply List.drop_eq_nil_of_le
          omega
        simp [he, hnil, hlt]
  · intro st text a h
    by_cases he : pyStrip text = ""
    · simp [on_final, he] at h
    · simp only [on_final, he, if_false, Bool.false_eq_true] at h
      rcases hpf : process_final st (pyStrip text) with ⟨st', r⟩
      cases r with
      | none => rw [hpf] at h; simp at h
      | some rem =>
        rw [hpf] at h
        simp at h
        rw [← h]

/-- C5 witness: the characterization applied at the scenario input, and the
non-interruptibility of the concretely emitted final speak-action. -/
theorem C5_final_remainder_witness :
    ((process_final { initState with spoken_word_count := 2 }
        "hello there friend").2 =
      if pyStrip "hello there friend" ≠ "" ∧
          2 < (pySplit (pyStrip "hello there friend")).length then
        some (pyJoin ((pySplit (pyStrip "hello there friend")).drop 2))
      else none) ∧
    SpeakAction.interruptible ⟨"friend", false⟩ = false :=
  ⟨C5_final_remainder.1 { initState with spoken_word_count := 2 } "hello there friend",
    C5_final_remainder.2.1 { initState with spoken_word_count := 2 }
      "hello there friend" ⟨"friend", false⟩ (by decide)⟩

/-- C10: `process_final` never mutates any field of the streaming state —
every field is returned exactly as received, and in particular
`spoken_word_count` is not advanced by the final remainder; resetting after
a final happens only in the caller (`on_transcribed`), which applies
`reset` whenever the stripped final text is non-empty. -/
theorem C10_process_final_frame :
    (∀ (st : StreamingState) (text : String),
      (process_final st text).1 = st ∧
      (process_final st text).1.interim_history = st.interim_history ∧
      (process_final st text).1.last_stable_source = st.last_stable_source ∧
      (process_final st text).1.translated_pfx = st.translated_pfx ∧
      (process_final st text).1.spoken_word_count = st.spoken_word_count ∧
      (process_final st text).1.speech_start_time = st.speech_start_time ∧
      (process_final st text).1.first_audio_time = st.first_audio_time ∧
      (process_final st text).1.llm_latencies = st.llm_latencies) ∧
    (∀ (st : StreamingState) (text : String),
      pyStrip text ≠ "" → (on_final st text).1 = reset st) := by
  constructor
  · intro st text
    have h1 : (process_final st text).1 = st := by
      simp only [process_final]
      by_cases he : pyStrip text = ""
      · simp [he]
      · by_cases hr : (pySplit (pyStrip text)).drop st.spoken_word_count ≠ []
        · simp [he, hr]
        · simp [he, hr]
    exact ⟨h1, by rw [h1], by rw [h1], by rw [h1], by rw [h1], by rw [h1],
      by rw [h1], by rw [h1]⟩
  · intro st text he
    simp only [on_final, he, if_false, Bool.false_eq_true]
    rcases hpf : process_final st (pyStrip text) with ⟨st', r⟩
    have hst' : st' = st := by
      have := congrArg Prod.fst hpf
      simp only at this
      rw [← this]
      simp only [process_final]
      by_cases he2 : pyStrip (pyStrip text) = ""
      · simp [he2]
      · by_cases hr : (pySplit (pyStrip (pyStrip text))).drop st.spoken_word_count ≠ []
        · simp [he2, hr]
        · simp [he2, hr]
    cases r with
    | none => simp [hpf, hst']
    | some rem => simp [hpf, hst']

/-- C10 witness: at a concrete non-empty final text the state comes back
untouched and the caller applies `reset`. -/
theorem C10_process_final_frame_witness :
    ((process_final { initState with spoken_word_count := 3, llm_latencies := [4] }
        "a b").1 = { initState with spoken_word_count := 3, llm_latencies := [4] }) ∧
    (on_final { initState with spoken_word_count := 3, llm_latencies := [4] }
        "a b").1 =
      reset { initState with spoken_word_count := 3, llm_latencies := [4] } :=
  ⟨(C10_process_final_frame.1
      { initState with spoken_word_count := 3, llm_latencies := [4] } "a b").1,
    C10_process_final_frame.2
      { initState with spoken_word_count := 3, llm_latencies := [4] } "a b"
      (by decide)⟩

/-- C2: when every response the backend can give for the session's current
context yields a delta below `min_words_for_tts`, `process_interim` returns
no result and leaves `last_stable_source` and `translated_prefix` exactly as
they were; and (second part) `translated_prefix` advances ONLY when a
backend call succeeded with a delta meeting `min_words_for_tts`, in which
case it becomes that response's full translation. -/
theorem C2_short_delta_no_commit :
    (∀ (cfg : Config) (backend : Backend) (st : StreamingState) (now : Nat)
        (text : String),
      (∀ cs : String, ∃ (c : String) (l : Nat),
        backend cs st.last_stable_source st.translated_pfx
            cfg.source_lang cfg.target_lang = .ok (c, l) ∧
        delta_word_count (translate_post c st.translated_pfx l) <
          cfg.min_words_for_tts) →
      (process_interim cfg backend st now text).2 = .ok none ∧
      (process_interim cfg backend st now text).1.last_stable_source =
        st.last_stable_source ∧
      (process_interim cfg backend st now text).1.translated_pfx =
        st.translated_pfx) ∧
    (∀ (cfg : Config) (backend : Backend) (st : StreamingState) (now : Nat)
        (text : String) (st' : StreamingState)
        (r : Except BackendError (Option TranslationResult)),
      process_interim cfg backend st now text = (st', r) →
      st'.translated_pfx ≠ st.translated_pfx →
      ∃ (cs c : String) (l : Nat),
        backend cs st.last_stable_source st.translated_pfx
            cfg.source_lang cfg.target_lang = .ok (c, l) ∧
        cfg.min_words_for_tts ≤
          delta_word_count (translate_post c st.translated_pfx l) ∧
        st'.translated_pfx = (translate_post c st.translated_pfx l).full_translation) := by
  constructor
  · intro cfg backend st now text H
    unfold process_interim
    dsimp only
    split
    · exact ⟨rfl, rfl, rfl⟩
    next h1 =>
      split
      · exact ⟨rfl, rfl, rfl⟩
      next h2 =>
        split
        · exact ⟨rfl, rfl, rfl⟩
        next h3 =>
          obtain ⟨c, l, hbk, hshort⟩ := H (get_stable_pfx cfg
            { st with interim_history := st.interim_history ++ [pyStrip text] }
            (pyStrip text))
          split
          next e heq =>
            simp only [translate_delta, hbk] at heq
            exact Except.noConfusion heq
          next result heq =>
            simp only [translate_delta, hbk, Except.ok.injEq] at heq
            subst heq
            split
            · exact ⟨rfl, rfl, rfl⟩
            next h5 => exact absurd hshort h5
  · intro cfg backend st now text st' r hpr hne
    unfold process_interim at hpr
    dsimp only at hpr
    split at hpr
    · injection hpr with ha hb
      subst ha
      exact absurd rfl hne
    next h1 =>
      split at hpr
      · injection hpr with ha hb
        subst ha
        exact absurd rfl hne
      next h2 =>
        split at hpr
        · injection hpr with ha hb
          subst ha
          exact absurd rfl hne
        next h3 =>
          split at hpr
          next e heq =>
            injection hpr with ha hb
            subst ha
            exact absurd rfl hne
          next result heq =>
            split at hpr
            next h5 =>
              injection hpr with ha hb
              subst ha
              exact absurd rfl hne
            next h5 =>
              rcases hbk : backend (get_stable_pfx cfg
                  { st with interim_history := st.interim_history ++ [pyStrip text] }
                  (pyStrip text)) st.last_stable_source st.translated_pfx
                  cfg.source_lang cfg.target_lang with e | ⟨c, l⟩
              · simp only [translate_delta, hbk] at heq
                exact Except.noConfusion heq
              · simp only [translate_delta, hbk, Except.ok.injEq] at heq
                subst heq
                refine ⟨_, c, l, hbk, Nat.le_of_not_lt h5, ?_⟩
                split at hpr
                · injection hpr with ha hb
                  subst ha
                  rfl
                · injection hpr with ha hb
                  subst ha
                  rfl

/-- Concrete configuration used by witnesses: the one `agent.py` builds
(threshold 2, min words 2). -/
def cfgW : Config := ⟨"Russian", "English", 2, 2⟩

/-- A backend whose every response is a one-word content (delta below the
TTS minimum of `cfgW`). -/
def bkShort : Backend := fun _ _ _ _ _ => .ok ("X", 5)

/-- A backend whose every response is a two-word content. -/
def bkTwo : Backend := fun _ _ _ _ _ => .ok ("X Y", 5)

/-- A backend that always raises. -/
def bkErr : Backend := fun _ _ _ _ _ => .error ⟨"boom"⟩

/-- A session state holding one prior interim observation. -/
def stOneInterim : StreamingState := { initState with interim_history := ["a b"] }

/-- C2 witness: both parts applied at concrete inputs. -/
theorem C2_short_delta_no_commit_witness :
    ((process_interim cfgW bkShort initState 0 "a b").2 = .ok none ∧
      (process_interim cfgW bkShort initState 0 "a b").1.last_stable_source =
        initState.last_stable_source ∧
      (process_interim cfgW bkShort initState 0 "a b").1.translated_pfx =
        initState.translated_pfx) ∧
    (∃ (cs c : String) (l : Nat),
      bkTwo cs stOneInterim.last_stable_source stOneInterim.translated_pfx
          cfgW.source_lang cfgW.target_lang = .ok (c, l) ∧
      cfgW.min_words_for_tts ≤
        delta_word_count (translate_post c stOneInterim.translated_pfx l) ∧
      (process_interim cfgW bkTwo stOneInterim 0 "a b").1.translated_pfx =
        (translate_post c stOneInterim.translated_pfx l).full_translation) :=
  ⟨C2_short_delta_no_commit.1 cfgW bkShort initState 0 "a b"
      (fun _ => ⟨"X", 5, rfl, by decide⟩),
    C2_short_delta_no_commit.2 cfgW bkTwo stOneInterim 0 "a b" _ _ rfl (by decide)⟩

/-- C4: when the backend raises for every request it could be given,
`process_interim` leaves every state field untouched except
`interim_history` (which records the stripped interim exactly as a
successful call would have), and either returns no result (when no call was
issued) or propagates the error.  The full field characterization shows the
next interim is processed from exactly the state a no-usable-delta interim
would have left. -/
theorem C4_backend_error_no_op :
    ∀ (cfg : Config) (backend : Backend) (st : StreamingState) (now : Nat)
      (text : String),
      (∀ cs : String, ∃ e : BackendError,
        backend cs st.last_stable_source st.translated_pfx
            cfg.source_lang cfg.target_lang = .error e) →
      (process_interim cfg backend st now text).1.last_stable_source =
        st.last_stable_source ∧
      (process_interim cfg backend st now text).1.translated_pfx =
        st.translated_pfx ∧
      (process_interim cfg backend st now text).1.spoken_word_count =
        st.spoken_word_count ∧
      (process_interim cfg backend st now text).1.speech_start_time =
        st.speech_start_time ∧
      (process_interim cfg backend st now text).1.first_audio_time =
        st.first_audio_time ∧
      (process_interim cfg backend st now text).1.llm_latencies =
        st.llm_latencies ∧
      (process_interim cfg backend st now text).1.interim_history =
        (if pyStrip text = "" then st.interim_history
          else st.interim_history ++ [pyStrip text]) ∧
      ((process_interim cfg backend st now text).2 = .ok none ∨
        ∃ e, (process_interim cfg backend st now text).2 = .error e) := by
  intro cfg backend st now text H
  unfold process_interim
  dsimp only
  split
  next h1 => exact ⟨rfl, rfl, rfl, rfl, rfl, rfl, by simp [h1], Or.inl rfl⟩
  next h1 =>
    split
    · exact ⟨rfl, rfl, rfl, rfl, rfl, rfl, by simp [h1], Or.inl rfl⟩
    next h2 =>
      split
      · exact ⟨rfl, rfl, rfl, rfl, rfl, rfl, by simp [h1], Or.inl rfl⟩
      next h3 =>
        obtain ⟨e, hbk⟩ := H (get_stable_pfx cfg
          { st with interim_history := st.interim_history ++ [pyStrip text] }
          (pyStrip text))
        split
        next e' heq =>
          exact ⟨rfl, rfl, rfl, rfl, rfl, rfl, by simp [h1], Or.inr ⟨e', rfl⟩⟩
        next result heq =>
          simp only [translate_delta, hbk] at heq
          exact Except.noConfusion heq

/-- C4 witness: the raising backend at a concrete interim. -/
theorem C4_backend_error_no_op_witness :
    (process_interim cfgW bkErr stOneInterim 0 "a b").1.last_stable_source =
        stOneInterim.last_stable_source ∧
    (process_interim cfgW bkErr stOneInterim 0 "a b").1.translated_pfx =
        stOneInterim.translated_pfx ∧
    (process_interim cfgW bkErr stOneInterim 0 "a b").1.spoken_word_count =
        stOneInterim.spoken_word_count ∧
    (process_interim cfgW bkErr stOneInterim 0 "a b").1.speech_start_time =
        stOneInterim.speech_start_time ∧
    (process_interim cfgW bkErr stOneInterim 0 "a b").1.first_audio_time =
        stOneInterim.first_audio_time ∧
    (process_interim cfgW bkErr stOneInterim 0 "a b").1.llm_latencies =
        stOneInterim.llm_latencies ∧
    (process_interim cfgW bkErr stOneInterim 0 "a b").1.interim_history =
      (if pyStrip "a b" = "" then stOneInterim.interim_history
        else stOneInterim.interim_history ++ [pyStrip "a b"]) ∧
    ((process_interim cfgW bkErr stOneInterim 0 "a b").2 = .ok none ∨
      ∃ e, (process_interim cfgW bkErr stOneInterim 0 "a b").2 = .error e) :=
  C4_backend_error_no_op cfgW bkErr stOneInterim 0 "a b"
    (fun _ => ⟨⟨"boom"⟩, rfl⟩)

theorem wordStable_iff (recent : List String) (i : Nat) (w : String) :
    wordStable recent i w = true ↔
      ∀ h ∈ recent, i < (pySplit h).length ∧ (pySplit h).get? i = some w := by
  simp only [wordStable, List.all_eq_true, beq_iff_eq]
  constructor
  · intro hall h hh
    have hg := hall h hh
    obtain ⟨hlt, _⟩ := List.get?_eq_some.mp hg
    exact ⟨hlt, hg⟩
  · intro hall h hh
    exact (hall h hh).2

theorem stableTake_spec (recent : List String) :
    ∀ (ws : List String) (i : Nat), ∃ k, k ≤ ws.length ∧
      stableTake recent i ws = ws.take k ∧
      (∀ j, j < k → wordStable recent (i + j) (ws.getD j "") = true) ∧
      (k = ws.length ∨ wordStable recent (i + k) (ws.getD k "") = false) := by
  intro ws
  induction ws with
  | nil =>
    intro i
    exact ⟨0, Nat.le_refl 0, rfl, fun j hj => absurd hj (Nat.not_lt_zero j), Or.inl rfl⟩
  | cons w ws ih =>
    intro i
    by_cases hw : wordStable recent i w = true
    · obtain ⟨k, hk, hst, hstab, hlast⟩ := ih (i + 1)
      refine ⟨k + 1, by simpa using Nat.succ_le_succ hk, ?_, ?_, ?_⟩
      · simp only [stableTake, hw, if_true, List.take_succ_cons, hst]
      · intro j hj
        cases j with
        | zero => simpa using hw
        | succ j' =>
          have harith : i + (j' + 1) = (i + 1) + j' := by omega
          rw [harith]
          simpa using hstab j' (by omega)
      · rcases hlast with h | h
        · exact Or.inl (by simp [h])
        · refine Or.inr ?_
          have harith : i + (k + 1) = (i + 1) + k := by omega
          rw [harith]
          simpa using h
    · refine ⟨0, Nat.zero_le _, ?_, fun j hj => absurd hj (Nat.not_lt_zero j), Or.inr ?_⟩
      · simp only [stableTake, hw, if_false, List.take_zero, Bool.false_eq_true]
      · simpa [Bool.not_eq_true] using hw

/-- C3: with at least `stability_threshold` (positive, per the config's
contract) observations recorded, the detector's result is the join of the
longest contiguous-from-start word sequence of the current text such that
each word at index `i` exists and is identical at index `i` in every one of
the trailing `stability_threshold` observations, collapsing at the first
unstable index; and the concrete scenario: interims `"hello"`,
`"hello there"`, `"hello there"` with threshold 2 and no prior commit give
stable prefixes `""`, `"hello"`, `"hello there"` — `"hello there"` first at
the third observation. -/
theorem C3_stability_window :
    (∀ (cfg : Config) (st : StreamingState) (text : String),
      0 < cfg.stability_threshold →
      cfg.stability_threshold ≤ st.interim_history.length →
      ∃ k, k ≤ (pySplit text).length ∧
        get_stable_pfx cfg st text = pyJoin ((pySplit text).take k) ∧
        (trailing cfg.stability_threshold st.interim_history).length =
          cfg.stability_threshold ∧
        (∀ j, j < k →
          ∀ h ∈ trailing cfg.stability_threshold st.interim_history,
            j < (pySplit h).length ∧
            (pySplit h).get? j = some ((pySplit text).getD j "")) ∧
        (k = (pySplit text).length ∨
          ¬ ∀ h ∈ trailing cfg.stability_threshold st.interim_history,
              k < (pySplit h).length ∧
              (pySplit h).get? k = some ((pySplit text).getD k ""))) ∧
    (get_stable_pfx cfgW { initState with interim_history := ["hello"] }
        "hello" = "" ∧
      get_stable_pfx cfgW
        { initState with interim_history := ["hello", "hello there"] }
        "hello there" = "hello" ∧
      get_stable_pfx cfgW
        { initState with
          interim_history := ["hello", "hello there", "hello there"] }
        "hello there" = "hello there") := by
  constructor
  · intro cfg st text hpos hlen
    have hnlt : ¬ st.interim_history.length < cfg.stability_threshold :=
      Nat.not_lt.mpr hlen
    have hg : get_stable_pfx cfg st text =
        pyJoin (stableTake (trailing cfg.stability_threshold st.interim_history)
          0 (pySplit text)) := by
      simp only [get_stable_pfx, hnlt, if_false]
    obtain ⟨k, hk, hst, hstab, hlast⟩ :=
      stableTake_spec (trailing cfg.stability_threshold st.interim_history)
        (pySplit text) 0
    refine ⟨k, hk, ?_, ?_, ?_, ?_⟩
    · rw [hg, hst]
    · have hne : cfg.stability_threshold ≠ 0 := Nat.pos_iff_ne_zero.mp hpos
      simp only [trailing, hne, if_false]
      rw [List.length_drop]
      omega
    · intro j hj h hh
      have := (wordStable_iff _ _ _).mp (hstab j hj) h hh
      simpa using this
    · rcases hlast with h | h
      · exact Or.inl h
      · refine Or.inr ?_
        intro hall
        have : wordStable (trailing cfg.stability_threshold st.interim_history)
            (0 + k) ((pySplit text).getD k "") = true := by
          rw [wordStable_iff]
          intro h2 hh2
          simpa using hall h2 hh2
        rw [this] at h
        exact Bool.noConfusion h
  · exact ⟨by decide, by decide, by decide⟩

/-- C3 witness: the characterization at the third observation of the
scenario. -/
theorem C3_stability_window_witness :
    ∃ k, k ≤ (pySplit "hello there").length ∧
      get_stable_pfx cfgW
        { initState with
          interim_history := ["hello", "hello there", "hello there"] }
        "hello there" = pyJoin ((pySplit "hello there").take k) ∧
      (trailing cfgW.stability_threshold
        ["hello", "hello there", "hello there"]).length =
          cfgW.stability_threshold ∧
      (∀ j, j < k →
        ∀ h ∈ trailing cfgW.stability_threshold
            ["hello", "hello there", "hello there"],
          j < (pySplit h).length ∧
          (pySplit h).get? j = some ((pySplit "hello there").getD j "")) ∧
      (k = (pySplit "hello there").length ∨
        ¬ ∀ h ∈ trailing cfgW.stability_threshold
              ["hello", "hello there", "hello there"],
            k < (pySplit h).length ∧
            (pySplit h).get? k = some ((pySplit "hello there").getD k "")) :=
  C3_stability_window.1 cfgW
    { initState with
      interim_history := ["hello", "hello there", "hello there"] }
    "hello there" (by decide) (by decide)

theorem get_stable_pfx_llm (cfg : Config) (hh : List String) (ls tp : String)
    (sp : Nat) (sst fat : Option Nat) (L1 L2 : List Nat) (txt : String) :
    get_stable_pfx cfg ⟨hh, ls, tp, sp, sst, fat, L1⟩ txt =
      get_stable_pfx cfg ⟨hh, ls, tp, sp, sst, fat, L2⟩ txt := rfl


theorem process_interim_llm_invariant :
    ∀ (cfg : Config) (backend : Backend) (now : Nat) (text : String)
      (hh : List String) (ls tp : String) (sp : Nat) (sst fat : Option Nat)
      (L1 L2 : List Nat),
      (process_interim cfg backend ⟨hh, ls, tp, sp, sst, fat, L1⟩ now text).2 =
        (process_interim cfg backend ⟨hh, ls, tp, sp, sst, fat, L2⟩ now text).2 ∧
      ∃ app : List Nat,
        (process_interim cfg backend ⟨hh, ls, tp, sp, sst, fat, L1⟩ now text).1 =
          { (process_interim cfg backend ⟨hh, ls, tp, sp, sst, fat, L2⟩ now
              text).1 with llm_latencies := L1 ++ app } ∧
        (process_interim cfg backend ⟨hh, ls, tp, sp, sst, fat, L2⟩ now
            text).1.llm_latencies = L2 ++ app := by
  intro cfg backend now text hh ls tp sp sst fat L1 L2
  unfold process_interim
  dsimp only
  by_cases h1 : pyStrip text = ""
  · simp only [h1, if_true]
    exact ⟨by trivial, [], by simp, by simp⟩
  · simp only [h1, if_false]
    rw [get_stable_pfx_llm cfg (hh ++ [pyStrip text]) ls tp sp sst fat L1 L2]
    by_cases h2 : get_stable_pfx cfg
        ⟨hh ++ [pyStrip text], ls, tp, sp, sst, fat, L2⟩ (pyStrip text) = ""
    · simp only [h2, if_true]
      exact ⟨by trivial, [], by simp, by simp⟩
    · simp only [h2, if_false]
      by_cases h3 : get_stable_pfx cfg
          ⟨hh ++ [pyStrip text], ls, tp, sp, sst, fat, L2⟩ (pyStrip text) = ls
      · simp only [h3, if_true]
        exact ⟨by trivial, [], by simp, by simp⟩
      · simp only [h3, if_false]
        rcases hbk : backend (get_stable_pfx cfg
            ⟨hh ++ [pyStrip text], ls, tp, sp, sst, fat, L2⟩ (pyStrip text))
            ls tp cfg.source_lang cfg.target_lang with e | ⟨c, l⟩
        · simp only [translate_delta, hbk]
          exact ⟨by trivial, [], by simp, by simp⟩
        · simp only [translate_delta, hbk]
          by_cases h5 : delta_word_count (translate_post c tp l) <
              cfg.min_words_for_tts
          · simp only [h5, if_true]
            exact ⟨by trivial, [(translate_post c tp l).latency_ms],
              by rfl, by rfl⟩
          · simp only [h5, if_false]
            by_cases h6 : fat = none ∧ optTruthy sst = true
            · rw [if_pos h6, if_pos h6]
              exact ⟨by trivial, [(translate_post c tp l).latency_ms],
                by rfl, by rfl⟩
            · rw [if_neg h6, if_neg h6]
              exact ⟨by trivial, [(translate_post c tp l).latency_ms],
                by rfl, by rfl⟩

/-- A state mid-utterance with one recorded LLM latency. -/
def stUsed : StreamingState :=
  { initState with
    interim_history := ["x"]
    translated_pfx := "P"
    spoken_word_count := 1
    llm_latencies := [5] }

/-- C9 counterexample: `reset` does not fully clear the session state —
`llm_latencies` survives — so the state resulting from a fresh interim after
`reset()` differs from the state after the very first interim of a
brand-new session. -/
theorem C9_counterexample :
    reset stUsed ≠ initState ∧
    (process_interim cfgW bkTwo (reset stUsed) 0 "hi").1 ≠
      (process_interim cfgW bkTwo initState 0 "hi").1 :=
  ⟨by decide, by decide⟩

/-- C9 amended: `reset` clears every per-utterance field (history, stable
source, translated prefix, spoken count, both timestamps) but preserves the
cross-utterance `llm_latencies`; after `reset()` a fresh interim returns
exactly the result it would return in a brand-new session, and the
resulting states agree on every field except `llm_latencies`, which carries
the preserved samples in front. -/
theorem C9_reset_amended :
    ∀ (cfg : Config) (backend : Backend) (st : StreamingState) (now : Nat)
      (text : String),
      reset st = { initState with llm_latencies := st.llm_latencies } ∧
      (process_interim cfg backend (reset st) now text).2 =
        (process_interim cfg backend initState now text).2 ∧
      (process_interim cfg backend (reset st) now text).1 =
        { (process_interim cfg backend initState now text).1 with
          llm_latencies := st.llm_latencies ++
            (process_interim cfg backend initState now text).1.llm_latencies } := by
  intro cfg backend st now text
  obtain ⟨h2, app, h3, h4⟩ := process_interim_llm_invariant cfg backend now text
    [] "" "" 0 none none st.llm_latencies []
  have happ : app =
      (process_interim cfg backend initState now text).1.llm_latencies := by
    have : (process_interim cfg backend
        (⟨[], "", "", 0, none, none, []⟩ : StreamingState) now
        text).1.llm_latencies = app := by rw [h4]; simp
    exact this.symm
  refine ⟨rfl, ?_, ?_⟩
  · exact h2
  · rw [show (reset st : StreamingState) =
        ⟨[], "", "", 0, none, none, st.llm_latencies⟩ from rfl]
    rw [show (initState : StreamingState) =
        ⟨[], "", "", 0, none, none, []⟩ from rfl]
    rw [h3, happ]
    rfl

theorem process_interim_spoken (cfg : Config) (backend : Backend)
    (st : StreamingState) (now : Nat) (t : String) :
    (process_interim cfg backend st now t).1.spoken_word_count =
      st.spoken_word_count := by
  unfold process_interim
  dsimp only
  split
  · rfl
  · split
    · rfl
    · split
      · rfl
      · split
        · rfl
        · split
          · rfl
          · split
            · rfl
            · rfl

theorem spokenWords_append (xs ys : List SpeakAction) :
    spokenWords (xs ++ ys) = spokenWords xs ++ spokenWords ys := by
  simp [spokenWords]

theorem process_and_speak_spoken (cfg : Config) (backend : Backend)
    (st : StreamingState) (now : Nat) (t : String) :
    (process_and_speak cfg backend st now t).1.spoken_word_count =
      st.spoken_word_count +
        (spokenWords (process_and_speak cfg backend st now t).2.toList).length := by
  have hpi := process_interim_spoken cfg backend st now t
  unfold process_and_speak
  rcases hp : process_interim cfg backend st now t with ⟨st1, r⟩
  rw [hp] at hpi
  dsimp only at hpi
  cases r with
  | error e => dsimp only; simpa [spokenWords] using hpi
  | ok o =>
    cases o with
    | none => dsimp only; simpa [spokenWords] using hpi
    | some result =>
      dsimp only
      by_cases hd : result.delta ≠ ""
      · rw [if_pos hd]
        dsimp only
        rw [hpi]
        congr 1
        simp [spokenWords]
      · rw [if_neg hd]
        dsimp only
        simpa [spokenWords] using hpi

theorem run_interims_spoken (cfg : Config) (backend : Backend) (now : Nat) :
    ∀ (texts : List String) (st : StreamingState),
      (run_interims cfg backend now st texts).1.spoken_word_count =
        st.spoken_word_count +
          (spokenWords (run_interims cfg backend now st texts).2).length := by
  intro texts
  induction texts with
  | nil => intro st; simp [run_interims, spokenWords]
  | cons t ts ih =>
    intro st
    have hstep := process_and_speak_spoken cfg backend st now t
    have hih := ih (process_and_speak cfg backend st now t).1
    unfold run_interims
    dsimp only
    rw [hih, hstep, spokenWords_append, List.length_append]
    omega

theorem pySplit_pyJoin_drop (s : String) (n : Nat) :
    pySplit (pyJoin ((pySplit s).drop n)) = (pySplit s).drop n := by
  apply pySplit_pyJoin
  intro w hw
  exact pySplit_clean s w (List.drop_subset _ _ hw)

theorem on_final_words (st : StreamingState) (text : String) :
    spokenWords (on_final st text).2.toList =
      (pySplit (pyStrip text)).drop st.spoken_word_count := by
  by_cases he : pyStrip text = ""
  · have h0 : on_final st text = (st, none) := by
      unfold on_final
      dsimp only
      rw [if_pos he]
    rw [h0, he]
    simp [spokenWords, pySplit_empty]
  · have hpf : process_final st (pyStrip text) =
        (st, if (pySplit (pyStrip text)).drop st.spoken_word_count ≠ [] then
          some (pyJoin ((pySplit (pyStrip text)).drop st.spoken_word_count))
          else none) := by
      unfold process_final
      rw [pyStrip_idem, if_neg he]
      dsimp only
      split
      · rfl
      · rfl
    unfold on_final
    rw [if_neg he, hpf]
    by_cases hr : (pySplit (pyStrip text)).drop st.spoken_word_count = []
    · simp only [hr, ne_eq, not_true_eq_false, if_false]
      simp [spokenWords, hr]
    · simp only [ne_eq, hr, not_false_iff, if_true]
      simp [spokenWords, pySplit_pyJoin_drop]

theorem process_final_fst (st : StreamingState) (t : String) :
    (process_final st t).1 = st := by
  unfold process_final
  dsimp only
  split
  · rfl
  · split
    · rfl
    · rfl

/-- C1 counterexample: with the deployed config (threshold 2, min words 2),
interims `"a b", "a b"`, a backend answering `"X Y"`, and final transcript
`"P Q R"`, the spoken-word count after processing the final is 2, not the
final's word count 3, and the concatenated speak-actions read
`X Y R`, not `P Q R`: the code never checks that the final transcript
agrees with the incrementally spoken translation. -/
theorem C1_counterexample :
    (process_final (run_interims cfgW bkTwo 0 initState ["a b", "a b"]).1
        "P Q R").1.spoken_word_count ≠ (pySplit "P Q R").length ∧
    spokenWords (run_utterance cfgW bkTwo 0 initState ["a b", "a b"]
        "P Q R").2 ≠ pySplit "P Q R" :=
  ⟨by decide, by decide⟩

/-- C1 amended: `spoken_word_count` always equals the number of words
spoken across the utterance's interim speak-actions (not the final
transcript's total word count — `process_final` does not advance it), and
whenever the final transcript's first `spoken_word_count` words agree with
the words already spoken, the concatenation of all speak-actions of the
utterance (interim deltas plus final remainder) equals the final transcript
word-for-word, with no word lost and none duplicated. -/
theorem C1_amended :
    ∀ (cfg : Config) (backend : Backend) (now : Nat) (interims : List String)
      (finalText : String),
      (run_interims cfg backend now initState interims).1.spoken_word_count =
        (spokenWords (run_interims cfg backend now initState interims).2).length ∧
      (process_final (run_interims cfg backend now initState interims).1
          finalText).1.spoken_word_count =
        (run_interims cfg backend now initState interims).1.spoken_word_count ∧
      ((pySplit (pyStrip finalText)).take
          (run_interims cfg backend now initState interims).1.spoken_word_count =
        spokenWords (run_interims cfg backend now initState interims).2 →
        spokenWords (run_utterance cfg backend now initState interims
          finalText).2 = pySplit (pyStrip finalText)) := by
  intro cfg backend now interims finalText
  refine ⟨?_, ?_, ?_⟩
  · simpa [initState] using run_interims_spoken cfg backend now interims initState
  · rw [process_final_fst]
  · intro h
    unfold run_utterance
    dsimp only
    rw [spokenWords_append, on_final_words, ← h, List.take_append_drop]

/-- C1 amended witness: a run where the final transcript does extend the
spoken words; every conjunct applied concretely, the agreement hypothesis
discharged by evaluation. -/
theorem C1_amended_witness :
    ((run_interims cfgW bkTwo 0 initState ["a b", "a b"]).1.spoken_word_count =
      (spokenWords (run_interims cfgW bkTwo 0 initState ["a b", "a b"]).2).length) ∧
    ((process_final (run_interims cfgW bkTwo 0 initState ["a b", "a b"]).1
        "X Y R").1.spoken_word_count =
      (run_interims cfgW bkTwo 0 initState ["a b", "a b"]).1.spoken_word_count) ∧
    spokenWords (run_utterance cfgW bkTwo 0 initState ["a b", "a b"]
        "X Y R").2 = pySplit (pyStrip "X Y R") :=
  ⟨(C1_amended cfgW bkTwo 0 ["a b", "a b"] "X Y R").1,
    (C1_amended cfgW bkTwo 0 ["a b", "a b"] "X Y R").2.1,
    (C1_amended cfgW bkTwo 0 ["a b", "a b"] "X Y R").2.2 (by decide)⟩
